import Mathlib

/-!
# Verification of the simply-cli command engine (`src/simplycli/cli.py`)

Shallow embedding of the command registry, matching, resolution and
registration logic of `cli.py`.  Python strings are modelled as `List Char`
(ASCII case folding via `Char.toLower`, matching `str.lower` on ASCII).
Python objects are modelled by value, with a `Nat` identity (`nid`) standing
for object identity; the handler ("command-like") objects passed by callers
are likewise identified by a `Nat` descriptor (`clike`), since the code only
ever compares them by identity.

The argument binder (`ArgMatcher` in `arg.py`) is not part of the sources;
where a claim needs it, the relevant behaviour is modelled from the spec and
marked as such.  `Command.execute` is embedded as the function from a node
and a raw input string to the terminal node reached by subcommand descent
together with the exact raw string handed to that node's argument matcher.
-/

abbrev Str := List Char

/-- Python `str.lower()` (ASCII fold, matching `Char.toLower`). -/
def lowerStr (s : Str) : Str := s.map Char.toLower

/-- Python regex class `\s` on ASCII: space, tab, newline, vertical tab,
form feed, carriage return. -/
def isWs (ch : Char) : Bool :=
  ch = ' ' || ch = '\t' || ch = '\n' || ch = '\x0b' || ch = '\x0c' || ch = '\r'

/-- `re.search(r"\s+", raw)` followed by the `raw[:start]` / `raw[end:]`
split used in `Command.execute` and `CLI.process_input`: `none` when the
string has no whitespace, otherwise the part before the first whitespace
run and the part after it. -/
def splitWs : Str → Option (Str × Str)
  | [] => none
  | ch :: rest =>
    if isWs ch then some ([], rest.dropWhile isWs)
    else
      match splitWs rest with
      | none => none
      | some (pre, post) => some (ch :: pre, post)

/-- A `Command` object (`Command.__init__`).  `nid` models object identity,
`clike` the identity of the wrapped command-like object.  `children` is
`__subcommands__` (a Python set, modelled in insertion order), `parentUnd`
is the `_parent` attribute (set to `None` by `__init__` and read by
`get_parent`), `parentDun` is the distinct `__parent__` attribute written by
`add_subcommand`, and `inst` is `_command_like_instance` (the singleton
instance, modelled by its `Nat` state). -/
structure Cmd where
  nid : Nat
  clike : Nat
  isClass : Bool
  name : Str
  aliases : List Str
  lowercase : Bool
  case_sensitive : Bool
  children : List Cmd
  parentUnd : Option Nat
  parentDun : Option Nat
  inst : Option Nat

/-- One iteration of the loop in `Command.matches`: fold the alias when
`lowercase` is set, then test `case_sensitive and cmd_name == alias` and,
independently (the source has no `else`), `cmd_name.lower() == alias`. -/
def matchesAlias (c : Cmd) (cmd_name : Str) (al : Str) : Bool :=
  let al2 := if c.lowercase then lowerStr al else al
  (c.case_sensitive && decide (cmd_name = al2)) || decide (lowerStr cmd_name = al2)

/-- `Command.matches`: `_aliases` is `[name] + aliases`; return `True` on
the first alias that matches. -/
def Cmd.matches (c : Cmd) (cmd_name : Str) : Bool :=
  (c.name :: c.aliases).any (fun al => matchesAlias c cmd_name al)

/-- The matching rule exactly as the spec's case table words it (§4.2):
fold the alias when `lowercase`; then *if* `case_sensitive`, require exact
equality of the word with the folded alias, *otherwise* fold the word to
lowercase and compare. -/
def matchesSpec (c : Cmd) (cmd_name : Str) : Bool :=
  (c.name :: c.aliases).any (fun al =>
    let al2 := if c.lowercase then lowerStr al else al
    if c.case_sensitive then decide (cmd_name = al2)
    else decide (lowerStr cmd_name = al2))

/-- The amended case table: when `case_sensitive`, exact equality with the
folded alias is *sufficient but not necessary* — a word whose lowercase
folding equals the folded alias also matches; when not `case_sensitive`,
only the lowercase-folded word is compared. -/
def matchesSpecAmended (c : Cmd) (cmd_name : Str) : Bool :=
  (c.name :: c.aliases).any (fun al =>
    let al2 := if c.lowercase then lowerStr al else al
    if c.case_sensitive then decide (cmd_name = al2) || decide (lowerStr cmd_name = al2)
    else decide (lowerStr cmd_name = al2))

theorem sizeOf_lt_of_mem_children (c : Cmd) (sub : Cmd)
    (h : sub ∈ c.children) : sizeOf sub < sizeOf c := by
  have h1 := List.sizeOf_lt_of_mem h
  obtain ⟨a1, a2, a3, a4, a5, a6, a7, ch, a9, a10, a11⟩ := c
  simp only [Cmd.mk.sizeOf_spec] at *
  omega

theorem sizeOf_children_lt (c : Cmd) : sizeOf c.children < sizeOf c := by
  obtain ⟨a1, a2, a3, a4, a5, a6, a7, ch, a9, a10, a11⟩ := c
  simp only [Cmd.mk.sizeOf_spec]
  omega

/-- `Command.add_subcommand`: appends to `__subcommands__` and sets the
subcommand's `__parent__` attribute (note: *not* the `_parent` attribute
that `get_parent` reads). -/
def Cmd.add_subcommand (c : Cmd) (sub : Cmd) : Cmd :=
  { c with children := c.children ++ [{ sub with parentDun := some c.nid }] }

/-- `Command.get_parent`: returns the `_parent` attribute (which
`__init__` sets to `None` and nothing else ever writes). -/
def Cmd.get_parent (c : Cmd) : Option Nat := c.parentUnd

/-- `Command.get_instance`: creates the singleton command-like instance via
the zero-argument constructor on first use (initial instance state `0`) and
caches it; returns the cached instance afterwards. -/
def Cmd.get_instance (c : Cmd) : Nat × Cmd :=
  match c.inst with
  | none => (0, { c with inst := some 0 })
  | some i => (i, c)

/-- `Command.find_subcommand` with a string identifier.  The source loop
returns the first subcommand that matches, but otherwise returns the
recursive search of the *first* subcommand unconditionally from inside the
loop body, so later siblings are never examined. -/
def Cmd.find_subcommand_str (c : Cmd) (w : Str) : Option Cmd :=
  match h : c.children with
  | [] => none
  | sub :: _ => if sub.matches w then some sub else sub.find_subcommand_str w
termination_by sizeOf c
decreasing_by
  apply sizeOf_lt_of_mem_children
  rw [h]
  exact List.mem_cons_self _ _

/-- `Command.find_subcommand` with a command-like identifier (the
`subcommand.command_like is parent` branch); same early-return shape. -/
def Cmd.find_subcommand_desc (c : Cmd) (d : Nat) : Option Cmd :=
  match h : c.children with
  | [] => none
  | sub :: _ => if sub.clike = d then some sub else sub.find_subcommand_desc d
termination_by sizeOf c
decreasing_by
  apply sizeOf_lt_of_mem_children
  rw [h]
  exact List.mem_cons_self _ _

mutual

/-- `Command.execute`, with the argument matching and handler invocation
(which live in the absent `arg.py`) abstracted: the result is the terminal
node's identity together with the exact raw string that `execute` hands to
`self._arg_matcher.match_arguments`.  The descent mirrors the source: split
the raw input at its first whitespace run; if there is a split and some
subcommand matches the head, recurse into it with the remainder; otherwise
the whole raw input (unsplit) goes to the current node's matcher. -/
def Cmd.execute (c : Cmd) (raw : Str) : Nat × Str :=
  match splitWs raw with
  | some (sub_name, sub_raw) =>
    match execFirstMatch c.children sub_name sub_raw with
    | some r => r
    | none => (c.nid, raw)
  | none => (c.nid, raw)
termination_by sizeOf c
decreasing_by
  exact sizeOf_children_lt c

/-- The `for subcommand in self.__subcommands__` loop of `Command.execute`:
recurse into the first subcommand matching the head word, `none` when no
subcommand matches. -/
def execFirstMatch (cs : List Cmd) (sub_name sub_raw : Str) : Option (Nat × Str) :=
  match cs with
  | [] => none
  | sub :: rest =>
    if sub.matches sub_name then some (sub.execute sub_raw)
    else execFirstMatch rest sub_name sub_raw
termination_by sizeOf cs
decreasing_by
  all_goals simp
  omega

end

/-- Modelled from the spec: the argument binder (`ArgMatcher`, in the absent
`arg.py`) injects the node's singleton instance — obtained through
`get_instance` — as the `self` parameter of a stateful (class-shaped)
handler, and `__execute__` may mutate that instance in place.  The instance
is modelled by its `Nat` state and `__execute__` by a state transformer `f`;
the in-place mutation becomes a write-back into the node's cached slot.
Plain callables do not involve the singleton (`none`, node unchanged). -/
def Cmd.executeSingleton (f : Nat → Nat) (c : Cmd) : Option Nat × Cmd :=
  if c.isClass then
    let p := c.get_instance
    let i2 := f p.1
    (some i2, { p.2 with inst := some i2 })
  else (none, c)

mutual

/-- Replace, throughout a tree, the node whose identity is `pid` by its
`add_subcommand sub` update.  This models the Python object mutation
`command_parent.add_subcommand(cmd)` performed on the node that
`find_command` returned (node identities are unique by construction, so at
most one node is affected). -/
def attachNode (pid : Nat) (sub : Cmd) (c : Cmd) : Cmd :=
  if c.nid = pid then c.add_subcommand sub
  else { c with children := attachNodeList pid sub c.children }
termination_by sizeOf c
decreasing_by
  exact sizeOf_children_lt c

def attachNodeList (pid : Nat) (sub : Cmd) (cs : List Cmd) : List Cmd :=
  match cs with
  | [] => []
  | c :: rest => attachNode pid sub c :: attachNodeList pid sub rest
termination_by sizeOf cs
decreasing_by
  all_goals simp
  omega

end

mutual

/-- Remove, from the node with identity `pid`, the child with identity
`cid`: models `parent.__subcommands__.remove(table_entry)` in
`CLI.unregister`. -/
def removeChildAt (pid : Nat) (cid : Nat) (c : Cmd) : Cmd :=
  if c.nid = pid then { c with children := c.children.filter (fun s => !(s.nid = cid)) }
  else { c with children := removeChildAtList pid cid c.children }
termination_by sizeOf c
decreasing_by
  exact sizeOf_children_lt c

def removeChildAtList (pid : Nat) (cid : Nat) (cs : List Cmd) : List Cmd :=
  match cs with
  | [] => []
  | c :: rest => removeChildAt pid cid c :: removeChildAtList pid cid rest
termination_by sizeOf cs
decreasing_by
  all_goals simp
  omega

end

mutual

/-- Dereference an object identity inside a tree (model device: Python holds
direct references, the model stores identities). -/
def Cmd.findByNid (c : Cmd) (i : Nat) : Option Cmd :=
  if c.nid = i then some c else findByNidList c.children i
termination_by sizeOf c
decreasing_by
  exact sizeOf_children_lt c

def findByNidList (cs : List Cmd) (i : Nat) : Option Cmd :=
  match cs with
  | [] => none
  | c :: rest =>
    match c.findByNid i with
    | some x => some x
    | none => findByNidList rest i
termination_by sizeOf cs
decreasing_by
  all_goals simp
  omega

end

/-- Dereference an object identity in a forest. -/
def findByNidForest (roots : List Cmd) (i : Nat) : Option Cmd :=
  findByNidList roots i

mutual

/-- All nodes of a tree (the node itself and, recursively, its children):
the reachable-node set used by the spec's registry invariant. -/
def Cmd.subtreeNodes (c : Cmd) : List Cmd :=
  c :: subtreeNodesList c.children
termination_by sizeOf c
decreasing_by
  exact sizeOf_children_lt c

def subtreeNodesList (cs : List Cmd) : List Cmd :=
  match cs with
  | [] => []
  | c :: rest => c.subtreeNodes ++ subtreeNodesList rest
termination_by sizeOf cs
decreasing_by
  all_goals simp
  omega

end

/-- All nodes reachable from a forest of roots. -/
def allNodes (roots : List Cmd) : List Cmd :=
  subtreeNodesList roots

/-- Python dict assignment `d[k] = v`: overwrite in place when the key is
present, append otherwise. -/
def updateTable (t : List (Nat × Nat)) (k : Nat) (v : Nat) : List (Nat × Nat) :=
  if t.any (fun e => e.1 = k) then t.map (fun e => if e.1 = k then (k, v) else e)
  else t ++ [(k, v)]

/-- Python `d.get(k)`. -/
def lookupTable (t : List (Nat × Nat)) (k : Nat) : Option Nat :=
  (t.find? (fun e => e.1 = k)).map (fun e => e.2)

/-- The loop of `CLI.find_command` for a string identifier: per root, first
the root's own `matches`, then its (buggy, first-child-only)
`find_subcommand`; only when both fail does the loop move to the next
root. -/
def findCommandStrAux (w : Str) : List Cmd → Option Cmd
  | [] => none
  | c :: rest =>
    if c.matches w then some c
    else
      match c.find_subcommand_str w with
      | some sub => some sub
      | none => findCommandStrAux w rest

/-- The loop of `CLI.find_command` for a command-like identifier (identity
comparison `command.command_like is identifier`). -/
def findCommandDescAux (d : Nat) : List Cmd → Option Cmd
  | [] => none
  | c :: rest =>
    if c.clike = d then some c
    else
      match c.find_subcommand_desc d with
      | some sub => some sub
      | none => findCommandDescAux d rest

/-- Registration error raised by `CLI._register_command`
(`ValueError(f"Parent not found {parent}")`, carrying the parent
descriptor). -/
inductive RegErr where
  | parentNotFound : Nat → RegErr
deriving DecidableEq

/-- The `CLI` object: `commands` is `_commands` (a set, modelled in
insertion order), `command_table` is `_command_table` (descriptor identity
to node identity), `result` the last result, and `nextId` the model's
fresh-identity counter. -/
structure CLI where
  commands : List Cmd
  command_table : List (Nat × Nat)
  result : Option (Nat × Str)
  nextId : Nat

/-- `CLI.find_command` with a name/alias string. -/
def CLI.find_command_str (s : CLI) (w : Str) : Option Cmd :=
  findCommandStrAux w s.commands

/-- `CLI.find_command` with a command-like identifier. -/
def CLI.find_command_desc (s : CLI) (d : Nat) : Option Cmd :=
  findCommandDescAux d s.commands

/-- `CLI._register_command`.  Mirrors the source order exactly: the
`Command` is constructed, the `_command_table` entry is written (this
happens *before* any parent lookup), then: with no parent the node is added
to `_commands` and `command_like` is returned; with a parent the parent is
located via `find_command` — found: `add_subcommand` mutates it in place and
`command_like` is returned without touching `_commands`; not found: the
`ValueError` is raised, with the table write already done.
(`command_like.__boundcommand__` is an attribute of the caller's object,
outside registry state, and is not modelled.) -/
def CLI.register_command (s : CLI) (clike : Nat) (parent : Option Nat)
    (name : Str) (aliases : List Str) (lowercase case_sensitive isClass : Bool) :
    Except RegErr Nat × CLI :=
  let cmd : Cmd := { nid := s.nextId, clike := clike, isClass := isClass, name := name,
                     aliases := aliases, lowercase := lowercase,
                     case_sensitive := case_sensitive, children := [],
                     parentUnd := none, parentDun := none, inst := none }
  let s1 : CLI := { s with command_table := updateTable s.command_table clike cmd.nid,
                           nextId := s.nextId + 1 }
  match parent with
  | some p =>
    match findCommandDescAux p s1.commands with
    | some cp => (Except.ok clike, { s1 with commands := s1.commands.map (attachNode cp.nid cmd) })
    | none => (Except.error (RegErr.parentNotFound p), s1)
  | none => (Except.ok clike, { s1 with commands := s1.commands ++ [cmd] })

/-- `CLI.unregister`: remove every root whose command-like equals the given
one from `_commands`; then, if the table has an entry, ask that node for its
parent via `get_parent` and, when a parent comes back, remove the node from
the parent's children.  (`get_parent` reads the never-written `_parent`
attribute, so the last branch is unreachable in practice; the table entry
itself is never deleted.) -/
def CLI.unregister (s : CLI) (clike : Nat) : CLI :=
  let commands2 := s.commands.filter (fun c => !(c.clike = clike))
  match lookupTable s.command_table clike with
  | none => { s with commands := commands2 }
  | some nid =>
    match findByNidForest s.commands nid with
    | none => { s with commands := commands2 }
    | some entry =>
      match entry.get_parent with
      | none => { s with commands := commands2 }
      | some pid => { s with commands := commands2.map (removeChildAt pid nid) }

/-- `CLI.process_input`: split the line at its first whitespace run into the
command name and the remainder (no whitespace: the whole line is the name
and the remainder is empty); the first root whose `matches` accepts the name
is executed on the remainder and its result stored in `self.result`; when no
root matches, nothing is returned and the state is untouched. -/
def CLI.process_input (s : CLI) (raw : Str) : Option (Nat × Str) × CLI :=
  let command_name :=
    match splitWs raw with
    | none => raw
    | some (hd, _) => hd
  let raw2 :=
    match splitWs raw with
    | none => ([] : Str)
    | some (_, tl) => tl
  match s.commands.find? (fun c => c.matches command_name) with
  | some c =>
    let r := c.execute raw2
    (some r, { s with result := some r })
  | none => (none, s)

/-! ## Helper lemmas -/

theorem any_congr_fun {α : Type} (l : List α) (f g : α → Bool)
    (h : ∀ a, f a = g a) : l.any f = l.any g := by
  induction l with
  | nil => rfl
  | cons x xs ih => simp [List.any_cons, h x, ih]

/-! ## C1 — the four-row case table of `Command.matches` -/

/-- A node with all-lowercase name `foo`, `lowercase=False`,
`case_sensitive=True`. -/
def exFoo : Cmd :=
  ⟨0, 0, false, ['f','o','o'], [], false, true, [], none, none, none⟩

/-- C1 (counterexample): the code's `matches` does not follow the spec's
case table.  With `lowercase=False`, `case_sensitive=True` and alias `foo`,
the spec's table accepts only the exact word `foo`, but the code also
accepts `FOO`: the lowered-word comparison is applied even when
`case_sensitive` is true (the source has no `else` between the two
checks). -/
theorem C1_counterexample :
    exFoo.matches ['F','O','O'] = true ∧ matchesSpec exFoo ['F','O','O'] = false := by
  constructor
  · decide
  · decide

/-- C1 (amended): for every alias in `[name] + aliases` (folded to
lowercase when `lowercase` is set), the word matches iff — when
`case_sensitive` is true — it equals the folded alias exactly *or* its
lowercase folding equals the folded alias, and — when `case_sensitive` is
false — its lowercase folding equals the folded alias.  So
`case_sensitive=true` is a superset of the spec's exact-match row: an
all-lowercase (folded) alias always matches case-insensitively. -/
theorem C1_matches_amended_table (c : Cmd) (w : Str) :
    c.matches w = matchesSpecAmended c w := by
  unfold Cmd.matches matchesSpecAmended
  apply any_congr_fun
  intro al
  unfold matchesAlias
  cases hcs : c.case_sensitive <;> simp

/-! ## C2 — reflexivity of `matches` -/

/-- A node with mixed-case name `Foo`, `lowercase=False`,
`case_sensitive=False`. -/
def exMixed : Cmd :=
  ⟨0, 0, false, ['F','o','o'], [], false, false, [], none, none, none⟩

/-- C2 (counterexample): matching is *not* reflexive under every
`(lowercase, case_sensitive)` combination.  With `lowercase=False` and
`case_sensitive=False`, a node named `Foo` does not match its own name: the
only comparison performed is `word.lower() == alias`, and `foo ≠ Foo`. -/
theorem C2_counterexample : exMixed.matches exMixed.name = false := by
  decide

/-- C2 (amended): `node.matches(node.name)` holds whenever `lowercase` is
set, or `case_sensitive` is set, or the name is already its own lowercase
folding; reflexivity fails only in the remaining case
(`lowercase=False`, `case_sensitive=False`, name not lowercase-fixed, as
the counterexample shows). -/
theorem C2_matches_reflexive (c : Cmd)
    (h : c.lowercase = true ∨ c.case_sensitive = true ∨ lowerStr c.name = c.name) :
    c.matches c.name = true := by
  have hhead : matchesAlias c c.name c.name = true := by
    rcases h with h | h | h
    · simp [matchesAlias, h]
    · cases hl : c.lowercase <;> simp [matchesAlias, h, hl]
    · cases hl : c.lowercase <;> cases hcs : c.case_sensitive <;>
        simp [matchesAlias, h, hl, hcs]
  unfold Cmd.matches
  simp [List.any_cons, hhead]

/-- C2 (witness): a concrete mixed-case name with `case_sensitive=True`
matching itself. -/
theorem C2_matches_reflexive_witness :
    (⟨0, 0, false, ['F','o','o'], [], false, true, [], none, none, none⟩ : Cmd).matches
      ['F','o','o'] = true :=
  C2_matches_reflexive _ (Or.inr (Or.inl (by decide)))

/-! ## Whitespace-split lemmas (for C8, C10) -/

/-- No character of the string is whitespace. -/
def wsFree (s : Str) : Bool := s.all (fun ch => !isWs ch)

/-- The string is empty or does not start with whitespace. -/
def headNotWs : Str → Bool
  | [] => true
  | ch :: _ => !isWs ch

/-- The leading token of a raw line, as `process_input` computes it. -/
def leadingWord (raw : Str) : Str :=
  match splitWs raw with
  | none => raw
  | some (hd, _) => hd

theorem dropWhile_isWs_of_headNotWs (ys : Str) (h : headNotWs ys = true) :
    ys.dropWhile isWs = ys := by
  cases ys with
  | nil => rfl
  | cons ch t =>
    simp only [headNotWs, Bool.not_eq_true'] at h
    simp [List.dropWhile, h]

theorem splitWs_append (xs ys : Str) (hx : wsFree xs = true)
    (hy : headNotWs ys = true) : splitWs (xs ++ ' ' :: ys) = some (xs, ys) := by
  induction xs with
  | nil =>
    simp only [List.nil_append, splitWs]
    rw [if_pos (by decide)]
    rw [dropWhile_isWs_of_headNotWs ys hy]
  | cons x xt ih =>
    simp only [wsFree, List.all_cons, Bool.and_eq_true, Bool.not_eq_true'] at hx
    simp only [List.cons_append, splitWs, hx.1]
    rw [if_neg (by simp [hx.1])]
    simp only [List.append_eq]
    rw [ih (by simp [wsFree, hx.2])]

theorem splitWs_eq_none (s : Str) (hs : wsFree s = true) : splitWs s = none := by
  induction s with
  | nil => rfl
  | cons ch t ih =>
    simp only [wsFree, List.all_cons, Bool.and_eq_true, Bool.not_eq_true'] at hs
    simp only [splitWs, hs.1]
    rw [if_neg (by simp [hs.1])]
    rw [ih (by simp [wsFree, hs.2])]

theorem headNotWs_append (xs ys : Str) (hx : wsFree xs = true) (hne : xs ≠ []) :
    headNotWs (xs ++ ys) = true := by
  cases xs with
  | nil => exact absurd rfl hne
  | cons x t =>
    simp only [wsFree, List.all_cons, Bool.and_eq_true, Bool.not_eq_true'] at hx
    simp [headNotWs, hx.1]

theorem headNotWs_of_wsFree (xs : Str) (hx : wsFree xs = true) :
    headNotWs xs = true := by
  cases xs with
  | nil => rfl
  | cons x t =>
    simp only [wsFree, List.all_cons, Bool.and_eq_true, Bool.not_eq_true'] at hx
    simp [headNotWs, hx.1]

/-! ## Unfolding lemmas for `Command.execute` -/

/-- The loop result, in terms of `List.find?`. -/
theorem execFirstMatch_eq (cs : List Cmd) (sub_name sub_raw : Str) :
    execFirstMatch cs sub_name sub_raw =
      (cs.find? (fun sub => sub.matches sub_name)).map (fun sub => sub.execute sub_raw) := by
  induction cs with
  | nil => rw [execFirstMatch]; rfl
  | cons sub rest ih =>
    rw [execFirstMatch]
    cases hm : sub.matches sub_name <;> simp [List.find?_cons, hm, ih]

theorem execute_descend (c sub : Cmd) (raw hd tl : Str)
    (hsp : splitWs raw = some (hd, tl))
    (hfind : c.children.find? (fun x => x.matches hd) = some sub) :
    c.execute raw = sub.execute tl := by
  conv_lhs => rw [Cmd.execute]
  simp only [hsp, execFirstMatch_eq, hfind, Option.map_some']

theorem execute_no_split (c : Cmd) (raw : Str) (hsp : splitWs raw = none) :
    c.execute raw = (c.nid, raw) := by
  rw [Cmd.execute]
  simp only [hsp]

theorem execute_no_child (c : Cmd) (raw hd tl : Str)
    (hsp : splitWs raw = some (hd, tl))
    (hfind : c.children.find? (fun x => x.matches hd) = none) :
    c.execute raw = (c.nid, raw) := by
  rw [Cmd.execute]
  simp only [hsp, execFirstMatch_eq, hfind, Option.map_none']

/-! ## C8 — depth-unbounded one-token-per-level resolution -/

/-- C8: (i) for a registered chain `root → a → b → c` and an input line
`wr wa wb wc w` whose tokens match the chain, `process_input` descends
through `a` and `b`, terminates at `c`, hands exactly the remaining tail
`w` to `c`'s argument matcher, and stores that result; (ii) whenever no
child matches the leading word of the remaining tail, descent stops and the
*entire* remaining tail string, unsplit, goes to the current node's
matcher. -/
theorem C8_chain_resolution :
    (∀ (s : CLI) (root a b c : Cmd) (wr wa wb wc w : Str),
      s.commands = [root] →
      root.children = [a] → a.children = [b] → b.children = [c] →
      wsFree wr = true →
      wsFree wa = true → wa ≠ [] →
      wsFree wb = true → wb ≠ [] →
      wsFree wc = true → wc ≠ [] →
      wsFree w = true →
      root.matches wr = true → a.matches wa = true →
      b.matches wb = true → c.matches wc = true →
      s.process_input (wr ++ ' ' :: (wa ++ ' ' :: (wb ++ ' ' :: (wc ++ ' ' :: w)))) =
        (some (c.nid, w), { s with result := some (c.nid, w) })) ∧
    (∀ (c : Cmd) (raw hd tl : Str), splitWs raw = some (hd, tl) →
      (∀ sub ∈ c.children, sub.matches hd = false) →
      c.execute raw = (c.nid, raw)) := by
  constructor
  · intro s root a b c wr wa wb wc w hcomm hch0 hch1 hch2 hfr har hane hbr hbne
      hcr hcne hwr hmr hma hmb hmc
    have ht3 : splitWs (wc ++ ' ' :: w) = some (wc, w) :=
      splitWs_append _ _ hcr (headNotWs_of_wsFree _ hwr)
    have ht2 : splitWs (wb ++ ' ' :: (wc ++ ' ' :: w)) = some (wb, wc ++ ' ' :: w) :=
      splitWs_append _ _ hbr (headNotWs_append _ _ hcr hcne)
    have ht1 : splitWs (wa ++ ' ' :: (wb ++ ' ' :: (wc ++ ' ' :: w))) =
        some (wa, wb ++ ' ' :: (wc ++ ' ' :: w)) :=
      splitWs_append _ _ har (headNotWs_append _ _ hbr hbne)
    have ht0 : splitWs (wr ++ ' ' :: (wa ++ ' ' :: (wb ++ ' ' :: (wc ++ ' ' :: w)))) =
        some (wr, wa ++ ' ' :: (wb ++ ' ' :: (wc ++ ' ' :: w))) :=
      splitWs_append _ _ hfr (headNotWs_append _ _ har hane)
    have hexec : root.execute (wa ++ ' ' :: (wb ++ ' ' :: (wc ++ ' ' :: w))) = (c.nid, w) := by
      rw [execute_descend root a _ wa _ ht1
        (by rw [hch0]; exact List.find?_cons_of_pos _ hma)]
      rw [execute_descend a b _ wb _ ht2
        (by rw [hch1]; exact List.find?_cons_of_pos _ hmb)]
      rw [execute_descend b c _ wc _ ht3
        (by rw [hch2]; exact List.find?_cons_of_pos _ hmc)]
      exact execute_no_split c w (splitWs_eq_none w hwr)
    unfold CLI.process_input
    rw [ht0, hcomm]
    simp only [List.find?_cons, hmr, hexec]
  · intro c raw hd tl hsp hnone
    refine execute_no_child c raw hd tl hsp ?_
    apply List.find?_eq_none.mpr
    intro sub hsub
    simp [hnone sub hsub]

/-- Chain used by the C8 witness. -/
def exChC : Cmd := ⟨3, 13, false, ['c'], [], false, true, [], none, none, none⟩

def exChB : Cmd := ⟨2, 12, false, ['b'], [], false, true, [exChC], none, none, none⟩

def exChA : Cmd := ⟨1, 11, false, ['a'], [], false, true, [exChB], none, none, none⟩

def exChRoot : Cmd := ⟨0, 10, false, ['r'], [], false, true, [exChA], none, none, none⟩

def exChCLI : CLI := ⟨[exChRoot], [(10, 0), (11, 1), (12, 2), (13, 3)], none, 4⟩

/-- C8 (witness): the concrete line `r a b c x` resolves through the chain
to the node named `c` with tail `x`; and a node with one non-matching child
keeps the whole raw string. -/
theorem C8_chain_resolution_witness :
    exChCLI.process_input ['r',' ','a',' ','b',' ','c',' ','x'] =
      (some (3, ['x']), { exChCLI with result := some (3, ['x']) }) ∧
    exChRoot.execute ['z',' ','q'] = (0, ['z',' ','q']) := by
  constructor
  · exact C8_chain_resolution.1 exChCLI exChRoot exChA exChB exChC
      ['r'] ['a'] ['b'] ['c'] ['x'] rfl rfl rfl rfl (by decide) (by decide)
      (by decide) (by decide) (by decide) (by decide) (by decide) (by decide)
      (by decide) (by decide) (by decide) (by decide)
  · exact C8_chain_resolution.2 exChRoot ['z',' ','q'] ['z'] ['q'] (by decide)
      (by decide)

/-! ## C10 — unmatched leading token -/

/-- C10: when no registered root command matches the leading token of the
line, `process_input` produces no result and leaves the `CLI` state —
including the last-result field — exactly as it was; no error is raised
(the function is total and simply returns nothing). -/
theorem C10_unmatched_no_result (s : CLI) (raw : Str)
    (h : ∀ c ∈ s.commands, c.matches (leadingWord raw) = false) :
    s.process_input raw = (none, s) := by
  unfold CLI.process_input
  cases hsp : splitWs raw with
  | none =>
    simp only [leadingWord, hsp] at h
    simp only [hsp]
    rw [List.find?_eq_none.mpr (fun c hc => by simp [h c hc])]
  | some p =>
    obtain ⟨hd, tl⟩ := p
    simp only [leadingWord, hsp] at h
    simp only [hsp]
    rw [List.find?_eq_none.mpr (fun c hc => by simp [h c hc])]

/-- C10 (witness): a concrete two-root registry where the line `zz ...`
matches no root. -/
theorem C10_unmatched_no_result_witness :
    (⟨[exFoo, exMixed], [(0, 0)], some (7, ['q']), 9⟩ : CLI).process_input
      ['z','z',' ','t'] = (none, ⟨[exFoo, exMixed], [(0, 0)], some (7, ['q']), 9⟩) :=
  C10_unmatched_no_result _ _ (by decide)

/-! ## C3, C6 — concrete registry scenarios -/

def cliEmpty : CLI := ⟨[], [], none, 0⟩

/-- Register descriptor `1` as a root named `r`. -/
def exC3a : CLI := (cliEmpty.register_command 1 none ['r'] [] false true false).2

/-- Then register descriptor `2` as subcommand `s` of descriptor `1`. -/
def exC3b : CLI := (exC3a.register_command 2 (some 1) ['s'] [] false true false).2

/-- Then unregister descriptor `2`. -/
def exC3c : CLI := exC3b.unregister 2

/-- C3 (code bug, evaluation at the failing input): after registering root
`r` (descriptor 1, node 0) with subcommand `s` (descriptor 2, node 1) and
then calling `unregister(2)`: (i) `find_command` with descriptor 2 still
returns the subcommand node; (ii) the node is still a member of its former
parent's children; (iii) the cause: `add_subcommand` wrote the parent into
the `__parent__` attribute while `get_parent` reads the never-assigned
`_parent`, so `unregister` sees no parent and removes nothing. -/
theorem C3_unregister_leaves_subcommand :
    ((exC3c.find_command_desc 2).map (fun c => c.nid) = some 1) ∧
    (exC3c.commands.map (fun c => (c.nid, c.children.map (fun x => x.nid))) = [(0, [1])]) ∧
    ((findByNidForest exC3b.commands 1).map (fun c => (c.get_parent, c.parentDun)) =
      some (none, some 0)) := by
  refine ⟨?_, ?_, ?_⟩ <;>
    simp [exC3c, exC3b, exC3a, cliEmpty, CLI.register_command, CLI.unregister,
      CLI.find_command_desc, findCommandDescAux, Cmd.find_subcommand_desc,
      attachNode, attachNodeList, Cmd.add_subcommand, updateTable, lookupTable,
      findByNidForest, findByNidList, Cmd.findByNid, Cmd.get_parent]

/-- Root `r` (descriptor 1, node 0) with two subcommands: `a` (descriptor 2,
node 1) registered first, then `b` (descriptor 3, node 2). -/
def exC6 : CLI :=
  (((exC3a.register_command 2 (some 1) ['a'] [] false true false).2).register_command
    3 (some 1) ['b'] [] false true false).2

/-- C6 (code bug, evaluation at the failing input): `find` is *not* a
depth-first search over every visited node's children.  In the registry
with root `r` and children `a`, `b` (in that order), the node named `b` is
reachable and matches the identifier `b`, yet `find_command` returns
nothing: `find_subcommand` returns the recursive search of the *first*
child from inside its loop, never reaching the second child. -/
theorem C6_find_misses_reachable_match :
    (exC6.find_command_str ['b'] = none) ∧
    ((allNodes exC6.commands).any (fun n => n.matches ['b']) = true) := by
  constructor <;>
    simp [exC6, exC3a, cliEmpty, CLI.register_command, CLI.find_command_str,
      findCommandStrAux, Cmd.find_subcommand_str, Cmd.find_subcommand_desc,
      findCommandDescAux, attachNode, attachNodeList, Cmd.add_subcommand,
      updateTable, allNodes, subtreeNodesList, Cmd.subtreeNodes, Cmd.matches,
      matchesAlias, lowerStr]


/-! ## Table lemmas (for C4, C5, C9) -/

theorem lookupTable_append_self (t : List (Nat × Nat)) (k v : Nat)
    (h : ∀ e ∈ t, e.1 ≠ k) : lookupTable (t ++ [(k, v)]) k = some v := by
  induction t with
  | nil => simp [lookupTable, List.find?]
  | cons e rest ih =>
    have he : e.1 ≠ k := h e (List.mem_cons_self _ _)
    simp only [lookupTable, List.cons_append, List.find?_cons, decide_eq_false he]
    simpa [lookupTable] using ih (fun x hx => h x (List.mem_cons_of_mem _ hx))

theorem lookupTable_append_other (t : List (Nat × Nat)) (k v k2 : Nat)
    (hne : k2 ≠ k) : lookupTable (t ++ [(k, v)]) k2 = lookupTable t k2 := by
  induction t with
  | nil => simp [lookupTable, List.find?, decide_eq_false (Ne.symm hne)]
  | cons e rest ih =>
    by_cases he : e.1 = k2
    · simp [lookupTable, List.find?_cons, he]
    · simp only [lookupTable, List.cons_append, List.find?_cons, decide_eq_false he]
      simpa [lookupTable] using ih

theorem lookupTable_mapUpd_self (t : List (Nat × Nat)) (k v : Nat)
    (h : t.any (fun e => decide (e.1 = k)) = true) :
    lookupTable (t.map (fun e => if e.1 = k then (k, v) else e)) k = some v := by
  induction t with
  | nil => simp at h
  | cons e rest ih =>
    by_cases he : e.1 = k
    · simp [lookupTable, List.find?_cons, he]
    · simp only [List.any_cons, Bool.or_eq_true, decide_eq_true_eq] at h
      rcases h with h1 | h2
      · exact absurd h1 he
      · simp only [lookupTable, List.map_cons, if_neg he, List.find?_cons,
          decide_eq_false he]
        simpa [lookupTable] using ih h2

theorem lookupTable_mapUpd_other (t : List (Nat × Nat)) (k v k2 : Nat)
    (hne : k2 ≠ k) :
    lookupTable (t.map (fun e => if e.1 = k then (k, v) else e)) k2 =
      lookupTable t k2 := by
  induction t with
  | nil => rfl
  | cons e rest ih =>
    by_cases he : e.1 = k
    · have he2 : e.1 ≠ k2 := by rw [he]; exact fun hh => hne hh.symm
      simp only [lookupTable, List.map_cons, if_pos he, List.find?_cons,
        decide_eq_false (Ne.symm hne), decide_eq_false he2]
      simpa [lookupTable] using ih
    · by_cases he2 : e.1 = k2
      · simp only [lookupTable, List.map_cons, if_neg he, List.find?_cons,
          decide_eq_true he2]
      · simp only [lookupTable, List.map_cons, if_neg he, List.find?_cons,
          decide_eq_false he2]
        simpa [lookupTable] using ih

theorem lookupTable_update_self (t : List (Nat × Nat)) (k v : Nat) :
    lookupTable (updateTable t k v) k = some v := by
  unfold updateTable
  cases hany : t.any (fun e => decide (e.1 = k)) with
  | false =>
    rw [if_neg (by simp [hany])]
    refine lookupTable_append_self t k v ?_
    intro e he
    have := List.any_eq_false.mp hany e he
    simpa using this
  | true =>
    rw [if_pos (by simp [hany])]
    exact lookupTable_mapUpd_self t k v hany

theorem lookupTable_update_other (t : List (Nat × Nat)) (k v k2 : Nat)
    (hne : k2 ≠ k) : lookupTable (updateTable t k v) k2 = lookupTable t k2 := by
  unfold updateTable
  cases hany : t.any (fun e => decide (e.1 = k)) with
  | false =>
    rw [if_neg (by simp [hany])]
    exact lookupTable_append_other t k v k2 hne
  | true =>
    rw [if_pos (by simp [hany])]
    exact lookupTable_mapUpd_other t k v k2 hne

/-! ## C4 — registration with an unknown parent -/

/-- The register call of the C4 counterexample: empty registry, descriptor
`5`, parent descriptor `9` (never registered). -/
def exC4 : Except RegErr Nat × CLI :=
  cliEmpty.register_command 5 (some 9) ['x'] [] false true false

/-- C4 (counterexample): registering under an unknown parent does raise the
parent-not-found error and leaves the roots untouched, but the
handler-to-node index is *not* "exactly as it was before the call": the
source writes `self._command_table[command_like] = cmd` before the parent
lookup, so the failed call leaves an entry mapping descriptor `5` to the
orphan node `0` in a previously empty table. -/
theorem C4_counterexample :
    exC4.1 = Except.error (RegErr.parentNotFound 9) ∧
    exC4.2.commands = cliEmpty.commands ∧
    exC4.2.command_table = [(5, 0)] ∧
    cliEmpty.command_table = [] := by
  refine ⟨?_, ?_, ?_, ?_⟩ <;>
    simp [exC4, cliEmpty, CLI.register_command, updateTable, findCommandDescAux]

/-- C4 (amended): if `register` is called with a parent descriptor for
which `find_command` finds no node, the call fails with the
parent-not-found error and the roots set is exactly as before — but the
handler-to-node index is changed: the descriptor being registered now maps
to the newly created (orphan) node, every other key being preserved. -/
theorem C4_parent_not_found (s : CLI) (clike p : Nat) (name : Str)
    (aliases : List Str) (low cs icl : Bool)
    (h : findCommandDescAux p s.commands = none) :
    (s.register_command clike (some p) name aliases low cs icl).1 =
      Except.error (RegErr.parentNotFound p) ∧
    (s.register_command clike (some p) name aliases low cs icl).2.commands =
      s.commands ∧
    lookupTable
      (s.register_command clike (some p) name aliases low cs icl).2.command_table
      clike = some s.nextId ∧
    ∀ k, k ≠ clike →
      lookupTable
        (s.register_command clike (some p) name aliases low cs icl).2.command_table
        k = lookupTable s.command_table k := by
  unfold CLI.register_command
  simp only [h]
  refine ⟨trivial, trivial, lookupTable_update_self _ _ _, ?_⟩
  intro k hk
  exact lookupTable_update_other _ _ _ _ hk

/-- C4 (witness): the amended statement at the concrete failing call. -/
theorem C4_parent_not_found_witness :
    exC4.1 = Except.error (RegErr.parentNotFound 9) ∧
    exC4.2.commands = cliEmpty.commands ∧
    lookupTable exC4.2.command_table 5 = some 0 ∧
    lookupTable exC4.2.command_table 7 = lookupTable cliEmpty.command_table 7 := by
  have h := C4_parent_not_found cliEmpty 5 9 ['x'] [] false true false rfl
  exact ⟨h.1, h.2.1, h.2.2.1, h.2.2.2 7 (by decide)⟩

/-! ## C9 — what registration returns, and re-registration -/

/-- C9 (counterexample): registration does *not* return the created node.
On an empty registry, registering descriptor `5` returns the descriptor
object itself (`_register_command` ends in `return command_like`), while
the created node is node `0`; the node is only recorded in the index. -/
theorem C9_counterexample :
    (cliEmpty.register_command 5 none ['x'] [] false true false).1 = Except.ok 5 ∧
    (cliEmpty.register_command 5 none ['x'] [] false true false).2.commands.map
      (fun c => c.nid) = [0] ∧
    lookupTable
      (cliEmpty.register_command 5 none ['x'] [] false true false).2.command_table
      5 = some 0 ∧
    (5 : Nat) ≠ 0 := by
  refine ⟨rfl, ?_, ?_, by decide⟩ <;>
    simp [cliEmpty, CLI.register_command, updateTable, lookupTable, List.find?]

/-- C9 (amended): registration returns the descriptor it was given (the
decorator contract), not the created node; and re-registering an
already-registered descriptor overwrites that descriptor's index entry
with the new node while the stale node of the earlier registration stays
in the tree: no node is removed from the roots. -/
theorem C9_reregistration (s : CLI) (clike oldId : Nat) (name : Str)
    (aliases : List Str) (low cs icl : Bool)
    (h : lookupTable s.command_table clike = some oldId)
    (hold : ∃ c ∈ s.commands, c.nid = oldId) :
    (s.register_command clike none name aliases low cs icl).1 = Except.ok clike ∧
    lookupTable
      (s.register_command clike none name aliases low cs icl).2.command_table
      clike = some s.nextId ∧
    ∃ c ∈ (s.register_command clike none name aliases low cs icl).2.commands,
      c.nid = oldId := by
  have hcomm : (s.register_command clike none name aliases low cs icl).2.commands =
      s.commands ++ [⟨s.nextId, clike, icl, name, aliases, low, cs, [], none, none, none⟩] :=
    rfl
  have htab : (s.register_command clike none name aliases low cs icl).2.command_table =
      updateTable s.command_table clike s.nextId := rfl
  refine ⟨rfl, ?_, ?_⟩
  · rw [htab]
    exact lookupTable_update_self _ _ _
  · obtain ⟨c, hc, hcn⟩ := hold
    rw [hcomm]
    exact ⟨c, List.mem_append_left _ hc, hcn⟩

/-- C9 (witness): re-registering descriptor `0` (already mapped to node
`0`, a root) returns the descriptor, remaps the index entry to the new
node `1`, and leaves the stale node `0` among the roots. -/
theorem C9_reregistration_witness :
    ((⟨[exFoo], [(0, 0)], none, 1⟩ : CLI).register_command
        0 none ['y'] [] false true false).1 = Except.ok 0 ∧
    lookupTable ((⟨[exFoo], [(0, 0)], none, 1⟩ : CLI).register_command
        0 none ['y'] [] false true false).2.command_table 0 = some 1 ∧
    ∃ c ∈ ((⟨[exFoo], [(0, 0)], none, 1⟩ : CLI).register_command
        0 none ['y'] [] false true false).2.commands, c.nid = 0 :=
  C9_reregistration ⟨[exFoo], [(0, 0)], none, 1⟩ 0 0 ['y'] [] false true false rfl
    ⟨exFoo, List.mem_cons_self _ _, rfl⟩

/-! ## C7 — the singleton lifecycle of class-shaped handlers -/

/-- C7: for a class-shaped (stateful) node, execution goes through the
node's lazily created singleton: with no cached instance, the first
execution constructs the instance via the zero-argument constructor
(state `0`), runs `__execute__` on it and caches the result on the node,
and a second execution then observes the first one's mutation
(`f (f 0)`); with a cached instance `i`, execution reuses exactly `i`
(the handler receives `i`, not a fresh instance) and the cache keeps the
mutated instance. -/
theorem C7_singleton_lifecycle (f : Nat → Nat) (c : Cmd) (hc : c.isClass = true) :
    (c.inst = none →
      (c.executeSingleton f).1 = some (f 0) ∧
      (c.executeSingleton f).2.inst = some (f 0) ∧
      ((c.executeSingleton f).2.executeSingleton f).2.inst = some (f (f 0))) ∧
    (∀ i, c.inst = some i →
      (c.executeSingleton f).1 = some (f i) ∧
      (c.executeSingleton f).2.inst = some (f i)) := by
  constructor
  · intro h0
    unfold Cmd.executeSingleton Cmd.get_instance
    simp [hc, h0]
  · intro i hi
    unfold Cmd.executeSingleton Cmd.get_instance
    simp [hc, hi]

/-- C7 (witness): a concrete class-shaped node and the successor handler:
first execution caches `1`, the second produces `2`. -/
theorem C7_singleton_lifecycle_witness :
    ((⟨0, 0, true, ['k'], [], false, true, [], none, none, none⟩ : Cmd).executeSingleton
      Nat.succ).2.inst = some 1 ∧
    (((⟨0, 0, true, ['k'], [], false, true, [], none, none, none⟩ : Cmd).executeSingleton
      Nat.succ).2.executeSingleton Nat.succ).2.inst = some 2 := by
  have h := (C7_singleton_lifecycle Nat.succ
    ⟨0, 0, true, ['k'], [], false, true, [], none, none, none⟩ rfl).1 rfl
  exact ⟨h.2.1, h.2.2⟩

/-! ## C5 — the roots/index invariant -/

/-- The spec's registry invariant (§3): every node reachable from the
roots appears in the handler-to-node index exactly once, and the index
contains no node unreachable from the roots. -/
def invB (s : CLI) : Bool :=
  ((allNodes s.commands).all fun n =>
    decide (s.command_table.countP (fun e => decide (e.2 = n.nid)) = 1)) &&
  (s.command_table.all fun e =>
    (allNodes s.commands).any fun n => decide (n.nid = e.2))

/-- Model bookkeeping: every node identity in the state is below the
fresh-identity counter (true of every state built by the operations). -/
def idsBounded (s : CLI) : Prop :=
  (∀ n ∈ allNodes s.commands, n.nid < s.nextId) ∧
  (∀ e ∈ s.command_table, e.2 < s.nextId)

theorem subtreeNodesList_nil : subtreeNodesList [] = [] := by
  rw [subtreeNodesList.eq_def]

theorem subtreeNodesList_cons (c : Cmd) (rest : List Cmd) :
    subtreeNodesList (c :: rest) = c.subtreeNodes ++ subtreeNodesList rest := by
  rw [subtreeNodesList.eq_def]

theorem subtreeNodes_unfold (c : Cmd) :
    c.subtreeNodes = c :: subtreeNodesList c.children := by
  rw [Cmd.subtreeNodes]

theorem subtreeNodesList_append (l1 l2 : List Cmd) :
    subtreeNodesList (l1 ++ l2) = subtreeNodesList l1 ++ subtreeNodesList l2 := by
  induction l1 with
  | nil => rw [List.nil_append, subtreeNodesList_nil, List.nil_append]
  | cons c rest ih =>
    rw [List.cons_append, subtreeNodesList_cons, ih, subtreeNodesList_cons,
      List.append_assoc]

theorem allNodes_append_leaf (roots : List Cmd) (cmd : Cmd)
    (h : cmd.children = []) : allNodes (roots ++ [cmd]) = allNodes roots ++ [cmd] := by
  unfold allNodes
  rw [subtreeNodesList_append, subtreeNodesList_cons, subtreeNodes_unfold, h,
    subtreeNodesList_nil]
  simp

/-- C5 (counterexample): starting from the registry holding exactly one
registered root (descriptor 1, node 0), where the invariant holds,
`unregister(1)` removes the node from the roots but never deletes the
`_command_table` entry, leaving an index entry for a node unreachable from
the roots: the invariant does not survive the public `unregister`
operation. -/
theorem C5_counterexample :
    invB exC3a = true ∧ invB (exC3a.unregister 1) = false := by
  constructor <;>
    simp [invB, exC3a, cliEmpty, CLI.register_command, CLI.unregister, updateTable,
      lookupTable, List.find?, allNodes, subtreeNodesList_nil, subtreeNodesList_cons,
      subtreeNodes_unfold, findByNidForest, findByNidList, Cmd.findByNid,
      Cmd.get_parent, List.countP_cons, List.countP_nil]

/-- C5 (amended): `register` with a descriptor that is not yet in the index
and no parent preserves the invariant (every reachable node indexed exactly
once, no unreachable node indexed); `unregister`, however, does not
preserve it — it removes the node from the roots but leaves the index
entry, exhibited on the concrete one-root registry. -/
theorem C5_register_preserves_invariant :
    (∀ (s : CLI) (clike : Nat) (name : Str) (aliases : List Str) (low cs icl : Bool),
      invB s = true → idsBounded s →
      lookupTable s.command_table clike = none →
      invB (s.register_command clike none name aliases low cs icl).2 = true) ∧
    (invB exC3a = true ∧ invB (exC3a.unregister 1) = false) := by
  constructor
  · intro s clike name aliases low cs icl hinv hbound hlook
    have hany : s.command_table.any (fun e => decide (e.1 = clike)) = false := by
      cases hf : s.command_table.find? (fun e => decide (e.1 = clike)) with
      | some e =>
        unfold lookupTable at hlook
        rw [hf] at hlook
        simp at hlook
      | none =>
        apply List.any_eq_false.mpr
        intro e he
        have := List.find?_eq_none.mp hf e he
        simpa using this
    have htab : (s.register_command clike none name aliases low cs icl).2.command_table =
        s.command_table ++ [(clike, s.nextId)] := by
      show updateTable s.command_table clike s.nextId = _
      unfold updateTable
      rw [if_neg (by simp [hany])]
    have hcomm : (s.register_command clike none name aliases low cs icl).2.commands =
        s.commands ++
          [⟨s.nextId, clike, icl, name, aliases, low, cs, [], none, none, none⟩] := rfl
    have hnodes : allNodes (s.register_command clike none name aliases low cs icl).2.commands =
        allNodes s.commands ++
          [⟨s.nextId, clike, icl, name, aliases, low, cs, [], none, none, none⟩] := by
      rw [hcomm]
      exact allNodes_append_leaf _ _ rfl
    simp only [invB, Bool.and_eq_true, List.all_eq_true, List.any_eq_true,
      decide_eq_true_eq] at hinv ⊢
    obtain ⟨hA, hB⟩ := hinv
    rw [hnodes, htab]
    constructor
    · intro m hm
      rw [List.countP_append]
      rcases List.mem_append.mp hm with hmem | hmem
      · have h1 := hA m hmem
        have hlt := hbound.1 m hmem
        have h2 : List.countP (fun e => decide (e.2 = m.nid)) [(clike, s.nextId)] = 0 := by
          simp only [List.countP_cons, List.countP_nil]
          have : ¬(s.nextId = m.nid) := by omega
          simp [this]
        omega
      · rw [List.mem_singleton] at hmem
        subst hmem
        have h1 : List.countP (fun e => decide (e.2 = s.nextId)) s.command_table = 0 := by
          apply List.countP_eq_zero.mpr
          intro e he
          have := hbound.2 e he
          simp only [decide_eq_true_eq]
          omega
        simp only [List.countP_cons, List.countP_nil, h1]
        simp
    · intro e he
      rcases List.mem_append.mp he with he1 | he1
      · obtain ⟨m, hm1, hm2⟩ := hB e he1
        exact ⟨m, List.mem_append_left _ hm1, hm2⟩
      · rw [List.mem_singleton] at he1
        subst he1
        exact ⟨_, List.mem_append_right _ (List.mem_singleton.mpr rfl), rfl⟩
  · constructor <;>
      simp [invB, exC3a, cliEmpty, CLI.register_command, CLI.unregister, updateTable,
        lookupTable, List.find?, allNodes, subtreeNodesList_nil, subtreeNodesList_cons,
        subtreeNodes_unfold, findByNidForest, findByNidList, Cmd.findByNid,
        Cmd.get_parent, List.countP_cons, List.countP_nil]

/-- C5 (witness): registering the fresh descriptor `2` as a second root of
the concrete one-root registry keeps the invariant. -/
theorem C5_register_preserves_invariant_witness :
    invB (exC3a.register_command 2 none ['y'] [] false true false).2 = true :=
  C5_register_preserves_invariant.1 exC3a 2 ['y'] [] false true false
    (by simp [invB, exC3a, cliEmpty, CLI.register_command, updateTable, lookupTable,
      List.find?, allNodes, subtreeNodesList_nil, subtreeNodesList_cons,
      subtreeNodes_unfold, List.countP_cons, List.countP_nil])
    (by simp [idsBounded, exC3a, cliEmpty, CLI.register_command, updateTable,
      allNodes, subtreeNodesList_nil, subtreeNodesList_cons, subtreeNodes_unfold])
    (by simp [exC3a, cliEmpty, CLI.register_command, updateTable, lookupTable,
      List.find?])
